import Mathlib

/-!
# Verification of the cozy-journal authentication and entry-storage core

Shallow embedding of the persistence/authentication core of the cozy-journal
repository and proofs of its specified properties.

The repository contains two variants of the core:

* `src/frontend/app_broken.py` — modelled in namespace `AppBroken`: per-user
  32-byte random salt, PBKDF2-HMAC-SHA256 at 100000 iterations, entries
  carrying `created_at`/`updated_at`, SQL `LIKE`-based search, update and
  delete without ownership checks.
* `src/frontend/app.py` — modelled in namespace `AppMain`: a fixed salt
  string shared by all users, entries carrying `mood`/`date_created`,
  in-Python substring search, delete with an ownership check.

Modelling conventions:

* The SQLite database is explicit state (`DB`): lists of user rows and entry
  rows plus the AUTOINCREMENT counters.  `INSERT` appends, `UPDATE` maps,
  `DELETE` filters, `ORDER BY k DESC` is an insertion sort on the key.
* `CURRENT_TIMESTAMP` values are `Nat` supplied by the caller (`now`); SQLite
  stores ISO-8601 text whose lexicographic order is chronological, so a
  totally ordered `Nat` clock is faithful.
* `hashlib.pbkdf2_hmac(alg, password, salt, iters).hex()` is an abstract
  deterministic function `Pbkdf2` of the algorithm name, password, salt bytes
  and iteration count; every operation is parameterised over it.
* `os.urandom(32)` is a randomness oracle: the sampled bytes are an explicit
  argument of `create_user`.
* `bytes.hex()` / `bytes.fromhex()` are modelled by `bytesToHex`/`hexToBytes`.
* SQLite `LIKE` (default `PRAGMA case_sensitive_like = OFF`: ASCII-only case
  folding, `%`/`_` wildcards) is modelled by `likeMatch`.
-/

/-- Abstract model of `hashlib.pbkdf2_hmac(alg, password, salt, iterations).hex()`:
a deterministic function of the hash-algorithm name, the password, the salt
bytes and the iteration count, returning the hex digest string. -/
abbrev Pbkdf2 := String → String → List Nat → Nat → String

/-! ## Hex codec: `bytes.hex()` and `bytes.fromhex()` -/

/-- Lower-case hex digit for a nibble (`0-9a-f`), as produced by `bytes.hex()`. -/
def hexChar (n : Nat) : Char :=
  if n < 10 then Char.ofNat (48 + n) else Char.ofNat (87 + n)

/-- Each byte becomes two hex digits, high nibble first. -/
def hexChars : List Nat → List Char
  | [] => []
  | b :: bs => hexChar (b / 16) :: hexChar (b % 16) :: hexChars bs

/-- `bytes.hex()`. -/
def bytesToHex (bs : List Nat) : String := ⟨hexChars bs⟩

/-- Value of a hex digit (`0-9`, `a-f`). -/
def hexVal (c : Char) : Nat :=
  if 97 ≤ c.toNat then c.toNat - 87 else c.toNat - 48

/-- Decode pairs of hex digits into bytes. -/
def hexPairs : List Char → List Nat
  | h :: l :: rest => (16 * hexVal h + hexVal l) :: hexPairs rest
  | _ => []

/-- `bytes.fromhex()`. -/
def hexToBytes (s : String) : List Nat := hexPairs s.data

/-- `str.encode('utf-8')` for the ASCII strings used here: the code points. -/
def strBytes (s : String) : List Nat := s.data.map Char.toNat

/-! ## ASCII case folding and the SQLite `LIKE` matcher -/

/-- ASCII lower-casing of one character (SQLite `LIKE` folds only `A`-`Z`). -/
def lowerChar (c : Char) : Char :=
  if 65 ≤ c.toNat ∧ c.toNat ≤ 90 then Char.ofNat (c.toNat + 32) else c

/-- ASCII lower-casing of a character list. -/
def lowers (l : List Char) : List Char := l.map lowerChar

/-- SQLite `LIKE` pattern matching (default settings): `%` matches any
sequence, `_` matches exactly one character, other characters match
ASCII-case-insensitively. -/
def likeMatch : List Char → List Char → Bool
  | [], cs => cs.isEmpty
  | p :: ps, cs =>
    if p = '%' then cs.tails.any (fun v => likeMatch ps v)
    else
      match cs with
      | [] => false
      | c :: cs' => (if p = '_' then true else lowerChar p == lowerChar c) && likeMatch ps cs'

/-- Literal list-prefix test (used by the substring predicate below). -/
def prefB : List Char → List Char → Bool
  | [], _ => true
  | _ :: _, [] => false
  | a :: as, b :: bs => (a == b) && prefB as bs

/-- Literal contiguous-sublist test. -/
def subB (n l : List Char) : Bool := l.tails.any (fun v => prefB n v)

/-- Spec-side predicate, following the specification's words: `s` contains
`term` as a case-insensitive substring (ASCII case folding). -/
def containsCI (term s : String) : Bool := subB (lowers term.data) (lowers s.data)

/-! ## Descending sort by a numeric key: models SQL `ORDER BY key DESC` -/

/-- The ordering used by `ORDER BY key DESC`: larger keys first. -/
def keyDesc (key : α → Nat) : α → α → Prop := fun a b => key b ≤ key a

instance (key : α → Nat) : DecidableRel (keyDesc key) := fun _ _ => Nat.decLe _ _

instance (key : α → Nat) : IsTotal α (keyDesc key) := ⟨fun a b => Nat.le_total (key b) (key a)⟩

instance (key : α → Nat) : IsTrans α (keyDesc key) :=
  ⟨fun _ _ _ h₁ h₂ => Nat.le_trans h₂ h₁⟩

/-- `ORDER BY key DESC`: sort with larger keys first. -/
def sortDescBy (key : α → Nat) (l : List α) : List α := List.insertionSort (keyDesc key) l

/-! ## `src/frontend/app_broken.py` -/

namespace AppBroken

/-- A row of the `users` table. -/
structure UserRow where
  id : Nat
  username : String
  salt : String
  password_hash : String
  created_at : Nat
deriving DecidableEq, Repr

/-- A row of the `journal_entries` table. -/
structure EntryRow where
  id : Nat
  user_id : Nat
  title : String
  content : String
  created_at : Nat
  updated_at : Nat
deriving DecidableEq, Repr

/-- The columns `get_user_entries` SELECTs and returns as a dict
(`id, title, content, created_at, updated_at`). -/
structure EntryView where
  id : Nat
  title : String
  content : String
  created_at : Nat
  updated_at : Nat
deriving DecidableEq, Repr

/-- Projection of a stored row onto the returned columns. -/
def EntryRow.view (e : EntryRow) : EntryView :=
  { id := e.id, title := e.title, content := e.content,
    created_at := e.created_at, updated_at := e.updated_at }

/-- The SQLite database `journal.db`. -/
structure DB where
  users : List UserRow
  entries : List EntryRow
  nextUserId : Nat
  nextEntryId : Nat
deriving DecidableEq, Repr

/-- `hash_password`: PBKDF2-HMAC with SHA-256 over the password and the given
salt at 100000 iterations, hex digest. -/
def hash_password (pbkdf2 : Pbkdf2) (password : String) (salt : List Nat) : String :=
  pbkdf2 "sha256" password salt 100000

/-- `create_user`: refuse an existing username, otherwise generate a salt
(the `salt` argument models the `os.urandom(32)` sample of this call), hash
the password and insert the row.  The stored salt is the hex text
`salt.hex()`. -/
def create_user (pbkdf2 : Pbkdf2) (db : DB) (username password : String)
    (salt : List Nat) (now : Nat) : Bool × DB :=
  if db.users.any (fun u => u.username == username) then (false, db)
  else
    let password_hash := hash_password pbkdf2 password salt
    (true,
      { db with
        users := db.users ++ [{ id := db.nextUserId, username := username,
                                salt := bytesToHex salt, password_hash := password_hash,
                                created_at := now }]
        nextUserId := db.nextUserId + 1 })

/-- The dict `{'id': ..., 'username': ...}` returned on success. -/
structure AuthUser where
  id : Nat
  username : String
deriving DecidableEq, Repr

/-- `authenticate_user`: look the user up by exact username, decode the stored
salt with `bytes.fromhex`, recompute the hash and compare with the stored
hash. -/
def authenticate_user (pbkdf2 : Pbkdf2) (db : DB) (username password : String) :
    Option AuthUser :=
  match db.users.find? (fun u => u.username == username) with
  | none => none
  | some u =>
    let salt := hexToBytes u.salt
    let password_hash := hash_password pbkdf2 password salt
    if password_hash == u.password_hash then some { id := u.id, username := u.username }
    else none

/-- `create_journal_entry`: INSERT the row; `created_at` and `updated_at`
default to `CURRENT_TIMESTAMP`.  No validation is performed. -/
def create_journal_entry (db : DB) (user_id : Nat) (title content : String)
    (now : Nat) : Bool × DB :=
  (true,
    { db with
      entries := db.entries ++ [{ id := db.nextEntryId, user_id := user_id, title := title,
                                  content := content, created_at := now, updated_at := now }]
      nextEntryId := db.nextEntryId + 1 })

/-- The pattern `f'%{search_term}%'` passed to `LIKE`. -/
def likePattern (term : String) : String := "%" ++ term ++ "%"

/-- The `title LIKE ? OR content LIKE ?` condition. -/
def entryMatches (term : String) (e : EntryRow) : Bool :=
  likeMatch (likePattern term).data e.title.data ||
    likeMatch (likePattern term).data e.content.data

/-- `get_user_entries`: SELECT the user's rows, optionally filtered by the
`LIKE` condition when `search_term` is non-empty (Python truthiness), ordered
by `updated_at DESC`. -/
def get_user_entries (db : DB) (user_id : Nat) (search_term : String := "") :
    List EntryView :=
  let rows :=
    if search_term == "" then db.entries.filter (fun e => e.user_id == user_id)
    else db.entries.filter (fun e => e.user_id == user_id && entryMatches search_term e)
  sortDescBy (fun v => v.updated_at) (rows.map EntryRow.view)

/-- `update_journal_entry`: UPDATE title, content and `updated_at` of the rows
whose `id` matches; the statement has no `user_id` predicate, so ownership is
not checked.  Always reports success. -/
def update_journal_entry (db : DB) (entry_id : Nat) (title content : String)
    (now : Nat) : Bool × DB :=
  (true,
    { db with
      entries := db.entries.map fun e =>
        if e.id == entry_id then { e with title := title, content := content, updated_at := now }
        else e })

/-- `delete_journal_entry`: DELETE the rows whose `id` matches; the statement
has no `user_id` predicate.  Always reports success. -/
def delete_journal_entry (db : DB) (entry_id : Nat) : Bool × DB :=
  (true, { db with entries := db.entries.filter (fun e => !(e.id == entry_id)) })

/-- Outcome reported by the new-entry form. -/
inductive FormResult
  | saved
  | saveFailed
  | emptyFieldsError
deriving DecidableEq, Repr

/-- The submission branch of `show_new_entry_form`: `if submitted and title
and content:` calls `create_journal_entry`, `elif submitted:` reports the
fill-in-both-fields error without touching the store. -/
def show_new_entry_form_submit (db : DB) (user_id : Nat) (title content : String)
    (now : Nat) : FormResult × DB :=
  if title != "" && content != "" then
    let r := create_journal_entry db user_id title content now
    (if r.1 then FormResult.saved else FormResult.saveFailed, r.2)
  else (FormResult.emptyFieldsError, db)

/-- The `export_data` document built by `show_search_and_export`. -/
structure ExportDoc where
  user : String
  exported_at : Nat
  total_entries : Nat
  entries : List EntryView
deriving DecidableEq, Repr

/-- The export-button branch of `show_search_and_export`: reads the user's
entries with no filter; if there are none it only shows a message, otherwise
it builds the export document.  The store is not written. -/
def show_search_and_export_click (db : DB) (user_id : Nat) (username : String)
    (now : Nat) : Option ExportDoc × DB :=
  let entries := get_user_entries db user_id
  if entries.isEmpty then (none, db)
  else
    (some { user := username, exported_at := now, total_entries := entries.length,
            entries := entries }, db)

end AppBroken

/-! ## `src/frontend/app.py` -/

namespace AppMain

/-- The fixed salt `"cozy_journal_salt"` baked into `hash_password`. -/
def salt_bytes : List Nat := strBytes "cozy_journal_salt"

/-- `hash_password`: PBKDF2-HMAC-SHA256 at 100000 iterations over the password
and the fixed salt; the same salt is used for every user and every call. -/
def hash_password (pbkdf2 : Pbkdf2) (password : String) : String :=
  pbkdf2 "sha256" password salt_bytes 100000

/-- A row of this variant's `users` table: it has no salt column. -/
structure UserRow where
  id : Nat
  username : String
  password_hash : String
  created_at : Nat
deriving DecidableEq, Repr

/-- A row of this variant's `journal_entries` table. -/
structure EntryRow where
  id : Nat
  user_id : Nat
  title : String
  content : String
  mood : String
  date_created : Nat
deriving DecidableEq, Repr

/-- The columns `get_user_entries` SELECTs and returns. -/
structure EntryView where
  id : Nat
  title : String
  content : String
  mood : String
  date_created : Nat
deriving DecidableEq, Repr

/-- Projection of a stored row onto the returned columns. -/
def EntryRow.view (e : EntryRow) : EntryView :=
  { id := e.id, title := e.title, content := e.content,
    mood := e.mood, date_created := e.date_created }

/-- This variant's database. -/
structure DB where
  users : List UserRow
  entries : List EntryRow
  nextUserId : Nat
  nextEntryId : Nat
deriving DecidableEq, Repr

/-- `create_user`: INSERT; the UNIQUE constraint on `username` raises
`IntegrityError` for a duplicate, which is reported as `False`. -/
def create_user (pbkdf2 : Pbkdf2) (db : DB) (username password : String)
    (now : Nat) : Bool × DB :=
  if db.users.any (fun u => u.username == username) then (false, db)
  else
    (true,
      { db with
        users := db.users ++ [{ id := db.nextUserId, username := username,
                                password_hash := hash_password pbkdf2 password,
                                created_at := now }]
        nextUserId := db.nextUserId + 1 })

/-- `verify_user`: SELECT id WHERE username and recomputed hash both match. -/
def verify_user (pbkdf2 : Pbkdf2) (db : DB) (username password : String) : Option Nat :=
  (db.users.find? fun u =>
      u.username == username && u.password_hash == hash_password pbkdf2 password).map
    (fun u => u.id)

/-- `add_journal_entry`: INSERT with `date_created` defaulting to
`CURRENT_TIMESTAMP`. -/
def add_journal_entry (db : DB) (user_id : Nat) (title content mood : String)
    (now : Nat) : Bool × DB :=
  (true,
    { db with
      entries := db.entries ++ [{ id := db.nextEntryId, user_id := user_id, title := title,
                                  content := content, mood := mood, date_created := now }]
      nextEntryId := db.nextEntryId + 1 })

/-- `get_user_entries`: SELECT the user's rows ordered by
`date_created DESC` (this variant has no `updated_at` column and no update
operation). -/
def get_user_entries (db : DB) (user_id : Nat) : List EntryView :=
  sortDescBy (fun v => v.date_created)
    ((db.entries.filter (fun e => e.user_id == user_id)).map EntryRow.view)

/-- `delete_entry`: DELETE WHERE both the id and the owning `user_id` match;
always reports success. -/
def delete_entry (db : DB) (entry_id : Nat) (user_id : Nat) : Bool × DB :=
  (true,
    { db with
      entries := db.entries.filter (fun e => !(e.id == entry_id && e.user_id == user_id)) })

/-- The search filter of `show_entries_list`: Python
`search_term.lower() in title.lower() or search_term.lower() in
content.lower()` (modelled with ASCII case folding). -/
def show_entries_list_filter (entries : List EntryView) (search_term : String) :
    List EntryView :=
  entries.filter (fun e => containsCI search_term e.title || containsCI search_term e.content)

end AppMain

/-! ## Helper lemmas -/

/-- Decoding a hex digit produced by `hexChar` recovers the nibble. -/
theorem hexVal_hexChar : ∀ n < 16, hexVal (hexChar n) = n := by decide

/-- `bytes.fromhex (bytes.hex bs) = bs` for genuine byte lists. -/
theorem hexToBytes_bytesToHex (bs : List Nat) (h : ∀ b ∈ bs, b < 256) :
    hexToBytes (bytesToHex bs) = bs := by
  have key : ∀ bs : List Nat, (∀ b ∈ bs, b < 256) → hexPairs (hexChars bs) = bs := by
    intro bs h
    induction bs with
    | nil => rfl
    | cons b bs ih =>
      have hb : b < 256 := h b (List.mem_cons_self b bs)
      have hhi : b / 16 < 16 := by omega
      have hlo : b % 16 < 16 := Nat.mod_lt _ (by omega)
      simp only [hexChars, hexPairs, hexVal_hexChar _ hhi, hexVal_hexChar _ hlo]
      rw [ih (fun x hx => h x (List.mem_cons_of_mem _ hx))]
      congr 1
      omega
  exact key bs h

/-- `find?` skips a block in which nothing satisfies the predicate. -/
theorem find?_append_of_none {p : α → Bool} {l₁ l₂ : List α}
    (h : ∀ x ∈ l₁, ¬ p x = true) : (l₁ ++ l₂).find? p = l₂.find? p := by
  rw [List.find?_append, List.find?_eq_none.mpr h, Option.none_or]

/-- `sortDescBy` permutes its input. -/
theorem sortDescBy_perm (key : α → Nat) (l : List α) : (sortDescBy key l).Perm l :=
  List.perm_insertionSort _ l

/-- `sortDescBy` is sorted: keys are non-increasing along the result. -/
theorem sortDescBy_sorted (key : α → Nat) (l : List α) :
    (sortDescBy key l).Sorted (keyDesc key) :=
  List.sorted_insertionSort _ l

/-- Membership is preserved by `sortDescBy`. -/
theorem mem_sortDescBy {key : α → Nat} {l : List α} {x : α} :
    x ∈ sortDescBy key l ↔ x ∈ l :=
  (sortDescBy_perm key l).mem_iff

/-- In a descending-sorted list, an element whose key strictly dominates every
other element's key is the head. -/
theorem head?_eq_of_strict_max {key : α → Nat} {l : List α} {e : α}
    (hs : l.Sorted (keyDesc key)) (he : e ∈ l)
    (hmax : ∀ x ∈ l, x ≠ e → key x < key e) : l.head? = some e := by
  cases l with
  | nil => cases he
  | cons h t =>
    simp only [List.head?_cons, Option.some.injEq]
    by_contra hne
    have hlt : key h < key e := hmax h (List.mem_cons_self h t) (fun hh => hne hh)
    rcases List.mem_cons.mp he with rfl | het
    · exact hne rfl
    · have : key e ≤ key h := (List.sorted_cons.mp hs).1 e het
      omega


/-! ## `LIKE '%term%'` versus case-insensitive substring containment -/

/-- Unfolding: a leading `%` tries every suffix of the subject. -/
theorem likeMatch_cons_pct (ps cs : List Char) :
    likeMatch ('%' :: ps) cs = cs.tails.any (fun v => likeMatch ps v) := by
  simp [likeMatch]

/-- Unfolding: a non-wildcard pattern character rejects the empty subject. -/
theorem likeMatch_cons_nil {p : Char} (hp : p ≠ '%') (ps : List Char) :
    likeMatch (p :: ps) [] = false := by
  simp [likeMatch, hp]

/-- Unfolding: a plain pattern character is compared case-insensitively. -/
theorem likeMatch_cons_cons {p : Char} (hp : p ≠ '%') (hpu : p ≠ '_')
    (ps : List Char) (c : Char) (cs : List Char) :
    likeMatch (p :: ps) (c :: cs) = ((lowerChar p == lowerChar c) && likeMatch ps cs) := by
  simp [likeMatch, hp, hpu]

/-- `prefB n v` holds exactly when `n` is a literal prefix of `v`. -/
theorem prefB_iff : ∀ {n v : List Char}, prefB n v = true ↔ ∃ t, v = n ++ t := by
  intro n
  induction n with
  | nil => intro v; simp [prefB]
  | cons a as ih =>
    intro v
    cases v with
    | nil => simp [prefB]
    | cons b bs =>
      simp only [prefB, Bool.and_eq_true, beq_iff_eq, ih, List.cons_append, List.cons.injEq]
      constructor
      · rintro ⟨rfl, t, rfl⟩; exact ⟨t, rfl, rfl⟩
      · rintro ⟨t, rfl, rfl⟩; exact ⟨rfl, t, rfl⟩

/-- `subB n l` holds exactly when `n` occurs contiguously inside `l`. -/
theorem subB_iff {n l : List Char} : subB n l = true ↔ ∃ u t, l = u ++ n ++ t := by
  simp only [subB, List.any_eq_true, List.mem_tails, prefB_iff]
  constructor
  · rintro ⟨v, hsuf, t, rfl⟩
    obtain ⟨u, rfl⟩ := hsuf
    exact ⟨u, t, by simp⟩
  · rintro ⟨u, t, rfl⟩
    exact ⟨n ++ t, ⟨u, by simp⟩, t, rfl⟩

/-- The pattern `"%"` matches every string. -/
theorem likeMatch_pct (cs : List Char) : likeMatch ['%'] cs = true := by
  rw [likeMatch_cons_pct]
  refine List.any_eq_true.mpr ⟨[], List.mem_tails .. |>.mpr List.nil_suffix, rfl⟩

/-- A leading `%` matches exactly the subjects with a split point whose right
part matches the rest of the pattern. -/
theorem likeMatch_lead_pct {ps cs : List Char} :
    likeMatch ('%' :: ps) cs = true ↔ ∃ u v, cs = u ++ v ∧ likeMatch ps v = true := by
  rw [likeMatch_cons_pct]
  simp only [List.any_eq_true, List.mem_tails]
  constructor
  · rintro ⟨v, hsuf, hv⟩
    obtain ⟨u, rfl⟩ := hsuf
    exact ⟨u, v, rfl, hv⟩
  · rintro ⟨u, v, rfl, hv⟩
    exact ⟨v, ⟨u, rfl⟩, hv⟩

/-- A wildcard-free pattern followed by `%` matches exactly the subjects with a
case-insensitively equal prefix. -/
theorem likeMatch_plain_pct :
    ∀ {t : List Char}, (∀ c ∈ t, c ≠ '%' ∧ c ≠ '_') →
      ∀ {cs : List Char},
        (likeMatch (t ++ ['%']) cs = true ↔ ∃ u v, cs = u ++ v ∧ lowers u = lowers t) := by
  intro t
  induction t with
  | nil =>
    intro _ cs
    simp only [List.nil_append, likeMatch_pct, true_iff]
    exact ⟨[], cs, rfl, rfl⟩
  | cons a t' ih =>
    intro hw cs
    have ha : a ≠ '%' ∧ a ≠ '_' := hw a (List.mem_cons_self a t')
    have hw' : ∀ c ∈ t', c ≠ '%' ∧ c ≠ '_' := fun c hc => hw c (List.mem_cons_of_mem _ hc)
    cases cs with
    | nil =>
      rw [List.cons_append, likeMatch_cons_nil ha.1]
      constructor
      · intro h; cases h
      · rintro ⟨u, v, huv, hu⟩
        rcases List.append_eq_nil.mp huv.symm with ⟨rfl, rfl⟩
        simp [lowers] at hu
    | cons c cs' =>
      rw [List.cons_append, likeMatch_cons_cons ha.1 ha.2]
      simp only [Bool.and_eq_true, beq_iff_eq, ih hw']
      constructor
      · rintro ⟨hac, u, v, rfl, hu⟩
        refine ⟨c :: u, v, rfl, ?_⟩
        simp only [lowers, List.map_cons, List.cons.injEq] at hu ⊢
        exact ⟨hac.symm, hu⟩
      · rintro ⟨u, v, huv, hu⟩
        cases u with
        | nil => simp [lowers] at hu
        | cons c₀ u' =>
          rw [List.cons_append] at huv
          rcases List.cons.injEq .. ▸ huv with ⟨rfl, h2⟩
          simp only [lowers, List.map_cons, List.cons.injEq] at hu
          exact ⟨hu.1.symm, u', v, h2, hu.2⟩

/-- Splitting a mapped list along an append of the image. -/
theorem map_eq_append_split {f : α → β} :
    ∀ {l : List α} {s t : List β}, l.map f = s ++ t →
      ∃ l₁ l₂, l = l₁ ++ l₂ ∧ l₁.map f = s ∧ l₂.map f = t := by
  intro l s
  induction s generalizing l with
  | nil => intro t h; exact ⟨[], l, rfl, rfl, h⟩
  | cons b s ih =>
    intro t h
    cases l with
    | nil => simp at h
    | cons a l =>
      simp only [List.map_cons, List.cons_append, List.cons.injEq] at h
      obtain ⟨l₁, l₂, rfl, h₁, h₂⟩ := ih h.2
      exact ⟨a :: l₁, l₂, rfl, by simp [h.1, h₁], h₂⟩

/-- For a wildcard-free search term, `LIKE '%term%'` agrees with
ASCII-case-insensitive substring containment. -/
theorem like_iff_contains {t cs : List Char} (hw : ∀ c ∈ t, c ≠ '%' ∧ c ≠ '_') :
    likeMatch ('%' :: (t ++ ['%'])) cs = subB (lowers t) (lowers cs) := by
  have lhs_iff : likeMatch ('%' :: (t ++ ['%'])) cs = true ↔
      ∃ u m v, cs = u ++ m ++ v ∧ lowers m = lowers t := by
    rw [likeMatch_lead_pct]
    constructor
    · rintro ⟨u, v, rfl, hv⟩
      obtain ⟨m, w, rfl, hm⟩ := (likeMatch_plain_pct hw).mp hv
      exact ⟨u, m, w, by simp [List.append_assoc], hm⟩
    · rintro ⟨u, m, v, rfl, hm⟩
      exact ⟨u, m ++ v, by simp [List.append_assoc],
        (likeMatch_plain_pct hw).mpr ⟨m, v, rfl, hm⟩⟩
  have rhs_iff : subB (lowers t) (lowers cs) = true ↔
      ∃ u m v, cs = u ++ m ++ v ∧ lowers m = lowers t := by
    rw [subB_iff]
    constructor
    · rintro ⟨U, V, hUV⟩
      have hUV' : cs.map lowerChar = U ++ (lowers t ++ V) := by
        simpa [lowers, List.append_assoc] using hUV
      obtain ⟨u, rest, rfl, hU, hrest⟩ := map_eq_append_split hUV'
      obtain ⟨m, v, rfl, hm, hv⟩ := map_eq_append_split hrest
      exact ⟨u, m, v, by simp [List.append_assoc], hm⟩
    · rintro ⟨u, m, v, rfl, hm⟩
      refine ⟨lowers u, lowers v, ?_⟩
      simp only [lowers, List.map_append] at hm ⊢
      rw [hm]
  have hiff := lhs_iff.trans rhs_iff.symm
  cases h1 : likeMatch ('%' :: (t ++ ['%'])) cs <;>
    cases h2 : subB (lowers t) (lowers cs) <;> simp_all

/-- For a wildcard-free term, the SQL search condition of `get_user_entries`
is exactly the specification's case-insensitive substring test on title and
content. -/
theorem entryMatches_eq_containsCI {term : String}
    (hw : ∀ c ∈ term.data, c ≠ '%' ∧ c ≠ '_') (e : AppBroken.EntryRow) :
    AppBroken.entryMatches term e =
      (containsCI term e.title || containsCI term e.content) := by
  have hp : (AppBroken.likePattern term).data = '%' :: (term.data ++ ['%']) := by
    simp [AppBroken.likePattern, String.data_append]
  unfold AppBroken.entryMatches containsCI
  rw [hp, like_iff_contains hw, like_iff_contains hw]

/-! ## Claim theorems -/

/-- C1: for valid inputs (non-empty username, password meeting the length
floor of 4) and a username not already registered, `create_user` succeeds and
`authenticate_user` with the same credentials returns exactly the user id that
registration assigned (`nextUserId`).  The salt bytes are the `os.urandom(32)`
sample of the registration call. -/
theorem claim_C1_register_then_authenticate
    (pbkdf2 : Pbkdf2) (db : AppBroken.DB) (username password : String)
    (salt : List Nat) (now : Nat)
    (hvalid_u : username ≠ "") (hvalid_p : 4 ≤ password.length)
    (hfresh : ∀ u ∈ db.users, u.username ≠ username)
    (hsalt : ∀ b ∈ salt, b < 256) :
    (AppBroken.create_user pbkdf2 db username password salt now).1 = true ∧
    AppBroken.authenticate_user pbkdf2
        (AppBroken.create_user pbkdf2 db username password salt now).2 username password
      = some { id := db.nextUserId, username := username } := by
  have hany : ¬ (db.users.any (fun u => u.username == username) = true) := by
    intro h
    obtain ⟨u, hu, h⟩ := List.any_eq_true.mp h
    exact hfresh u hu (by simpa using h)
  have hnone : ∀ u ∈ db.users, ¬ ((fun u => u.username == username) u = true) := by
    intro u hu
    simpa using hfresh u hu
  constructor
  · simp only [AppBroken.create_user, if_neg hany]
  · simp only [AppBroken.create_user, if_neg hany, AppBroken.authenticate_user]
    rw [find?_append_of_none hnone]
    rw [List.find?_cons_of_pos _ (by simp)]
    simp only [hexToBytes_bytesToHex salt hsalt]
    rw [if_pos (by simp)]

/-- C1 witness: a concrete registration followed by authentication. -/
theorem claim_C1_witness :
    (AppBroken.create_user (fun a p s n => a ++ p ++ toString s ++ toString n)
        ⟨[], [], 1, 1⟩ "alice" "secret1" [7, 3] 5).1 = true ∧
    AppBroken.authenticate_user (fun a p s n => a ++ p ++ toString s ++ toString n)
        (AppBroken.create_user (fun a p s n => a ++ p ++ toString s ++ toString n)
            ⟨[], [], 1, 1⟩ "alice" "secret1" [7, 3] 5).2 "alice" "secret1"
      = some { id := 1, username := "alice" } :=
  claim_C1_register_then_authenticate (fun a p s n => a ++ p ++ toString s ++ toString n)
    ⟨[], [], 1, 1⟩ "alice" "secret1" [7, 3] 5 (by decide) (by decide)
    (by intro u hu; cases hu) (by decide)

/-- C3: `update_journal_entry` always reports success, touches no user row,
preserves the number of entries, rewrites title/content and resets
`updated_at` on every row whose id matches (keeping id, owner and
`created_at`), and leaves every row with a different id untouched.  The
operation takes no requesting-user argument, so no ownership check is (or can
be) performed: the conclusion holds for arbitrary owners. -/
theorem claim_C3_update_overwrites_exactly (db : AppBroken.DB) (entry_id : Nat)
    (title content : String) (now : Nat) :
    (AppBroken.update_journal_entry db entry_id title content now).1 = true ∧
    (AppBroken.update_journal_entry db entry_id title content now).2.users = db.users ∧
    (AppBroken.update_journal_entry db entry_id title content now).2.entries.length
      = db.entries.length ∧
    (∀ i : Nat, ∀ e : AppBroken.EntryRow, db.entries[i]? = some e → e.id ≠ entry_id →
      (AppBroken.update_journal_entry db entry_id title content now).2.entries[i]? = some e) ∧
    (∀ i : Nat, ∀ e : AppBroken.EntryRow, db.entries[i]? = some e → e.id = entry_id →
      (AppBroken.update_journal_entry db entry_id title content now).2.entries[i]? =
        some { id := e.id, user_id := e.user_id, title := title, content := content,
               created_at := e.created_at, updated_at := now }) := by
  refine ⟨rfl, rfl, by simp [AppBroken.update_journal_entry], ?_, ?_⟩
  · intro i e he hne
    simp only [AppBroken.update_journal_entry, List.getElem?_map, he]
    simp [hne]
  · intro i e he heq
    simp only [AppBroken.update_journal_entry, List.getElem?_map, he]
    simp [heq]

/-- C3 witness: updating id 1 rewrites exactly that row and leaves id 2
untouched. -/
theorem claim_C3_witness :
    (AppBroken.update_journal_entry
        ⟨[], [⟨1, 1, "a", "b", 0, 0⟩, ⟨2, 2, "c", "d", 0, 0⟩], 3, 3⟩
        1 "T" "C" 9).2.entries[0]? = some ⟨1, 1, "T", "C", 0, 9⟩ ∧
    (AppBroken.update_journal_entry
        ⟨[], [⟨1, 1, "a", "b", 0, 0⟩, ⟨2, 2, "c", "d", 0, 0⟩], 3, 3⟩
        1 "T" "C" 9).2.entries[1]? = some ⟨2, 2, "c", "d", 0, 0⟩ := by
  constructor
  · exact (claim_C3_update_overwrites_exactly
      ⟨[], [⟨1, 1, "a", "b", 0, 0⟩, ⟨2, 2, "c", "d", 0, 0⟩], 3, 3⟩ 1 "T" "C" 9).2.2.2.2
      0 ⟨1, 1, "a", "b", 0, 0⟩ rfl rfl
  · exact (claim_C3_update_overwrites_exactly
      ⟨[], [⟨1, 1, "a", "b", 0, 0⟩, ⟨2, 2, "c", "d", 0, 0⟩], 3, 3⟩ 1 "T" "C" 9).2.2.2.1
      1 ⟨2, 2, "c", "d", 0, 0⟩ rfl (by decide)

/-- C10: `update_journal_entry` with an id that matches no stored entry
returns `True` and leaves the database exactly as it was. -/
theorem claim_C10_update_absent_id_noop (db : AppBroken.DB) (entry_id : Nat)
    (title content : String) (now : Nat)
    (habsent : ∀ e ∈ db.entries, e.id ≠ entry_id) :
    AppBroken.update_journal_entry db entry_id title content now = (true, db) := by
  have hmap : (db.entries.map fun e =>
      if e.id == entry_id then { e with title := title, content := content, updated_at := now }
      else e) = db.entries := by
    conv_rhs => rw [← List.map_id db.entries]
    apply List.map_congr_left
    intro e he
    simp [habsent e he]
  show (true, { db with entries := _ }) = (true, db)
  rw [hmap]

/-- C10 witness: updating the absent id 2 is a reported-success no-op. -/
theorem claim_C10_witness :
    AppBroken.update_journal_entry ⟨[], [⟨1, 1, "t", "c", 0, 0⟩], 2, 2⟩ 2 "x" "y" 9
      = (true, ⟨[], [⟨1, 1, "t", "c", 0, 0⟩], 2, 2⟩) :=
  claim_C10_update_absent_id_noop ⟨[], [⟨1, 1, "t", "c", 0, 0⟩], 2, 2⟩ 2 "x" "y" 9 (by decide)

/-- Unfolding `get_user_entries` (the `let` and the branch on the term). -/
theorem AppBroken.get_user_entries_eq (db : AppBroken.DB) (uid : Nat) (s : String) :
    AppBroken.get_user_entries db uid s = sortDescBy (fun v => v.updated_at)
      ((if s == "" then db.entries.filter (fun e => e.user_id == uid)
        else db.entries.filter (fun e => e.user_id == uid && AppBroken.entryMatches s e)).map
        AppBroken.EntryRow.view) := rfl

/-- Unfolding `get_user_entries` with the default (empty, hence falsy) term. -/
theorem AppBroken.get_user_entries_nosearch (db : AppBroken.DB) (uid : Nat) :
    AppBroken.get_user_entries db uid "" = sortDescBy (fun v => v.updated_at)
      ((db.entries.filter (fun e => e.user_id == uid)).map AppBroken.EntryRow.view) := rfl

/-- C2: `get_user_entries` returns results sorted by `updated_at` descending
(for any search term), the unfiltered listing is a permutation of exactly the
user's stored rows, and after `update_journal_entry` touches an entry with a
timestamp newer than every other entry of that user (the clock advanced since
the previous writes, as with the oldest entry), that entry is the head of the
next listing.  The `app.py` variant, whose schema has no `updated_at` and no
update operation, likewise lists most-recently-touched first: it sorts by
`date_created` descending. -/
theorem claim_C2_listing_order
    (db : AppBroken.DB) (uid : Nat) (s : String) (e : AppBroken.EntryRow)
    (entry_id : Nat) (title content : String) (now : Nat)
    (he : e ∈ db.entries) (hid : e.id = entry_id) (howner : e.user_id = uid)
    (hunique : ∀ x ∈ db.entries, x.id = entry_id → x = e)
    (hnow : ∀ x ∈ db.entries, x.user_id = uid → x.id ≠ entry_id → x.updated_at < now)
    (db2 : AppMain.DB) (uid2 : Nat) :
    (AppBroken.get_user_entries db uid s).Sorted
        (fun a b => b.updated_at ≤ a.updated_at) ∧
    (AppBroken.get_user_entries db uid "").Perm
        ((db.entries.filter (fun x => x.user_id == uid)).map AppBroken.EntryRow.view) ∧
    (AppBroken.get_user_entries
        (AppBroken.update_journal_entry db entry_id title content now).2 uid "").head?
      = some ⟨e.id, title, content, e.created_at, now⟩ ∧
    (AppMain.get_user_entries db2 uid2).Sorted
        (fun a b => b.date_created ≤ a.date_created) := by
  refine ⟨?_, ?_, ?_, ?_⟩
  · rw [AppBroken.get_user_entries_eq]
    exact sortDescBy_sorted _ _
  · rw [AppBroken.get_user_entries_nosearch]
    exact sortDescBy_perm _ _
  · -- the updated row strictly dominates all other rows of this user
    set φ : AppBroken.EntryRow → AppBroken.EntryRow := fun x =>
      if x.id == entry_id then { x with title := title, content := content, updated_at := now }
      else x with hφ
    have hentries : (AppBroken.update_journal_entry db entry_id title content now).2.entries
        = db.entries.map φ := rfl
    set erow : AppBroken.EntryRow :=
      { e with title := title, content := content, updated_at := now } with herow
    have hφe : φ e = erow := by
      simp only [hφ]
      rw [if_pos (show (e.id == entry_id) = true by simp [hid]), herow]
    rw [AppBroken.get_user_entries_nosearch, hentries]
    have hview : erow.view = (⟨e.id, title, content, e.created_at, now⟩ :
        AppBroken.EntryView) := rfl
    set M := ((db.entries.map φ).filter (fun x => x.user_id == uid)).map
      AppBroken.EntryRow.view with hM
    have hsorted : (sortDescBy (fun v => v.updated_at) M).Sorted
        (keyDesc (fun v => v.updated_at)) := sortDescBy_sorted _ _
    have hmem : (⟨e.id, title, content, e.created_at, now⟩ : AppBroken.EntryView)
        ∈ sortDescBy (fun v => v.updated_at) M := by
      rw [mem_sortDescBy, hM, ← hview]
      apply List.mem_map_of_mem
      rw [List.mem_filter]
      refine ⟨hφe ▸ List.mem_map_of_mem φ he, ?_⟩
      simp [herow, howner]
    have hmax : ∀ x ∈ sortDescBy (fun v => v.updated_at) M,
        x ≠ (⟨e.id, title, content, e.created_at, now⟩ : AppBroken.EntryView) →
        x.updated_at <
          (⟨e.id, title, content, e.created_at, now⟩ : AppBroken.EntryView).updated_at := by
      intro x hx hxe
      rw [mem_sortDescBy, hM] at hx
      obtain ⟨y, hy, hyx⟩ := List.mem_map.mp hx
      rw [List.mem_filter] at hy
      obtain ⟨z, hz, hzy⟩ := List.mem_map.mp hy.1
      by_cases hzid : z.id = entry_id
      · exfalso
        have hze : z = e := hunique z hz hzid
        subst hze
        rw [hφe] at hzy
        exact hxe (by rw [← hyx, ← hzy, hview])
      · have hzy' : y = z := by
          rw [← hzy]; simp [hφ, hzid]
        subst hzy'
        have hyuid : y.user_id = uid := by simpa using hy.2
        have hlt := hnow y hz hyuid hzid
        have hxupd : x.updated_at = y.updated_at := by rw [← hyx]; rfl
        simpa [hxupd] using hlt
    exact head?_eq_of_strict_max hsorted hmem hmax
  · exact sortDescBy_sorted _ _

/-- C2 witness: after updating the oldest of two entries, it heads the list. -/
theorem claim_C2_witness :
    (AppBroken.get_user_entries
        (AppBroken.update_journal_entry
            ⟨[], [⟨1, 1, "a", "b", 0, 10⟩, ⟨2, 1, "c", "d", 0, 5⟩], 3, 3⟩ 2 "T" "C" 20).2
        1 "").head? = some ⟨2, "T", "C", 0, 20⟩ :=
  (claim_C2_listing_order ⟨[], [⟨1, 1, "a", "b", 0, 10⟩, ⟨2, 1, "c", "d", 0, 5⟩], 3, 3⟩ 1 ""
      ⟨2, 1, "c", "d", 0, 5⟩ 2 "T" "C" 20 (by decide) rfl rfl (by decide) (by decide)
      ⟨[], [], 1, 1⟩ 1).2.2.1

/-- Unfolding `AppMain.get_user_entries`. -/
theorem AppMain.get_user_entries_unfold (db : AppMain.DB) (uid : Nat) :
    AppMain.get_user_entries db uid = sortDescBy (fun v => v.date_created)
      ((db.entries.filter (fun e => e.user_id == uid)).map AppMain.EntryRow.view) := rfl

/-- C4 counterexample: `app_broken.py`'s delete operation
(`delete_journal_entry`) takes no `userId` at all and removes the row even
though its owner is user 2: the non-owned row does *not* remain, and the
owner's next listing no longer contains it. -/
theorem claim_C4_counterexample :
    (AppBroken.delete_journal_entry ⟨[], [⟨5, 2, "t", "c", 0, 0⟩], 1, 6⟩ 5).1 = true ∧
    (AppBroken.delete_journal_entry ⟨[], [⟨5, 2, "t", "c", 0, 0⟩], 1, 6⟩ 5).2.entries = [] ∧
    AppBroken.get_user_entries
        (AppBroken.delete_journal_entry ⟨[], [⟨5, 2, "t", "c", 0, 0⟩], 1, 6⟩ 5).2 2 "" = [] ∧
    AppBroken.get_user_entries ⟨[], [⟨5, 2, "t", "c", 0, 0⟩], 1, 6⟩ 2 ""
      = [⟨5, "t", "c", 0, 0⟩] :=
  ⟨rfl, rfl, rfl, rfl⟩

/-- C4 (amended): the two-parameter `delete_entry` of `app.py` deletes only
the row whose id *and* owner match: it always reports success, deleting an
absent id is a no-op, deleting a non-owned id (distinct ids assumed, as the
primary key guarantees) is a no-op after which the row still appears in the
owner's listing, and an owned match removes the row. -/
theorem claim_C4_owner_scoped_delete (db : AppMain.DB) (entry_id user_id : Nat)
    (e : AppMain.EntryRow)
    (hids : (db.entries.map (fun x => x.id)).Nodup) :
    (AppMain.delete_entry db entry_id user_id).1 = true ∧
    ((∀ x ∈ db.entries, x.id ≠ entry_id) →
      (AppMain.delete_entry db entry_id user_id).2 = db) ∧
    (e ∈ db.entries → e.id = entry_id → e.user_id ≠ user_id →
      (AppMain.delete_entry db entry_id user_id).2 = db ∧
      AppMain.EntryRow.view e ∈
        AppMain.get_user_entries (AppMain.delete_entry db entry_id user_id).2 e.user_id) ∧
    (e ∈ db.entries → e.id = entry_id → e.user_id = user_id →
      e ∉ (AppMain.delete_entry db entry_id user_id).2.entries) := by
  refine ⟨rfl, ?_, ?_, ?_⟩
  · intro habs
    have hkeep : db.entries.filter
        (fun x => !(x.id == entry_id && x.user_id == user_id)) = db.entries := by
      rw [List.filter_eq_self]
      intro a ha
      simp [habs a ha]
    show ({ db with entries := _ } : AppMain.DB) = db
    rw [hkeep]
  · intro hmem hide hno
    have huniq : ∀ x ∈ db.entries, x.id = entry_id → x = e := by
      intro x hx hxid
      exact List.inj_on_of_nodup_map hids hx hmem (by rw [hxid, hide])
    have hkeep : db.entries.filter
        (fun x => !(x.id == entry_id && x.user_id == user_id)) = db.entries := by
      rw [List.filter_eq_self]
      intro a ha
      by_cases haid : a.id = entry_id
      · have hae : a = e := huniq a ha haid
        subst hae
        simp [hno]
      · simp [haid]
    have hdb : (AppMain.delete_entry db entry_id user_id).2 = db := by
      show ({ db with entries := _ } : AppMain.DB) = db
      rw [hkeep]
    refine ⟨hdb, ?_⟩
    rw [hdb, AppMain.get_user_entries_unfold, mem_sortDescBy]
    apply List.mem_map_of_mem
    rw [List.mem_filter]
    exact ⟨hmem, by simp⟩
  · intro hmem hide hyes hcontra
    have hp := (List.mem_filter.mp hcontra).2
    simp [hide, hyes] at hp

/-- C4 witness: deleting id 5 as user 1 while the row belongs to user 2 is a
no-op, and user 2's listing still contains the row. -/
theorem claim_C4_witness :
    (AppMain.delete_entry ⟨[], [⟨5, 2, "t", "c", "m", 0⟩], 1, 6⟩ 5 1).2
      = ⟨[], [⟨5, 2, "t", "c", "m", 0⟩], 1, 6⟩ ∧
    AppMain.EntryRow.view ⟨5, 2, "t", "c", "m", 0⟩ ∈
      AppMain.get_user_entries
        (AppMain.delete_entry ⟨[], [⟨5, 2, "t", "c", "m", 0⟩], 1, 6⟩ 5 1).2 2 :=
  (claim_C4_owner_scoped_delete ⟨[], [⟨5, 2, "t", "c", "m", 0⟩], 1, 6⟩ 5 1
      ⟨5, 2, "t", "c", "m", 0⟩ (by decide)).2.2.1 (by decide) rfl (by decide)

/-- C5 counterexample: in the `app.py` variant the salt is the fixed 17-byte
string `"cozy_journal_salt"` (17 < 32), it is shared by every user — two users
registering with the same password receive identical stored hashes — and the
user row carries no salt column at all. -/
theorem claim_C5_counterexample :
    (strBytes "cozy_journal_salt").length = 17 ∧
    ¬ 32 ≤ (strBytes "cozy_journal_salt").length ∧
    (AppMain.create_user (fun a p s n => a ++ p ++ toString s ++ toString n)
        (AppMain.create_user (fun a p s n => a ++ p ++ toString s ++ toString n)
            ⟨[], [], 1, 1⟩ "alice" "pw" 0).2 "bob" "pw" 1).2.users.map
        (fun u => u.password_hash)
      = [(fun (a p : String) (s : List Nat) (n : Nat) => a ++ p ++ toString s ++ toString n)
            "sha256" "pw" (strBytes "cozy_journal_salt") 100000,
         (fun (a p : String) (s : List Nat) (n : Nat) => a ++ p ++ toString s ++ toString n)
            "sha256" "pw" (strBytes "cozy_journal_salt") 100000] := by
  refine ⟨rfl, by decide, rfl⟩

/-- C5 (amended): in `app_broken.py`, every successful `create_user` call
persists — in one row — the username, the hex encoding of the 32 salt bytes
freshly sampled by `os.urandom(32)` for that call (decoding back to exactly
those 32 bytes), and the hash derived by PBKDF2-HMAC-SHA256 at 100000
iterations over the password and that salt.  (The `app.py` variant instead
uses the fixed shared 17-byte salt and stores no salt: see the
counterexample.) -/
theorem claim_C5_salted_kdf_registration
    (pbkdf2 : Pbkdf2) (db : AppBroken.DB) (username password : String)
    (salt : List Nat) (now : Nat)
    (hfresh : ∀ u ∈ db.users, u.username ≠ username)
    (hsalt_len : salt.length = 32) (hsalt : ∀ b ∈ salt, b < 256) :
    (AppBroken.create_user pbkdf2 db username password salt now).1 = true ∧
    (AppBroken.create_user pbkdf2 db username password salt now).2.users
      = db.users ++ [{ id := db.nextUserId, username := username, salt := bytesToHex salt,
                       password_hash := pbkdf2 "sha256" password salt 100000,
                       created_at := now }] ∧
    hexToBytes (bytesToHex salt) = salt ∧
    (hexToBytes (bytesToHex salt)).length = 32 := by
  have hany : ¬ (db.users.any (fun u => u.username == username) = true) := by
    intro h
    obtain ⟨u, hu, h⟩ := List.any_eq_true.mp h
    exact hfresh u hu (by simpa using h)
  have hrt : hexToBytes (bytesToHex salt) = salt := hexToBytes_bytesToHex salt hsalt
  refine ⟨?_, ?_, hrt, by rw [hrt, hsalt_len]⟩
  · simp only [AppBroken.create_user, if_neg hany]
  · simp only [AppBroken.create_user, if_neg hany, AppBroken.hash_password]

/-- C5 witness: a concrete registration with a 32-byte salt. -/
theorem claim_C5_witness :
    (AppBroken.create_user (fun a p s n => a ++ p ++ toString s ++ toString n)
        ⟨[], [], 1, 1⟩ "bob" "pw1234" (List.range 32) 3).1 = true ∧
    (hexToBytes (bytesToHex (List.range 32))).length = 32 := by
  have h := claim_C5_salted_kdf_registration
      (fun a p s n => a ++ p ++ toString s ++ toString n) ⟨[], [], 1, 1⟩ "bob" "pw1234"
      (List.range 32) 3 (by intro u hu; cases hu) (by decide) (by decide)
  exact ⟨h.1, h.2.2.2⟩

/-- C6 counterexample: the search term is spliced into a `LIKE` pattern, so a
term containing the wildcard `%` matches entries that do not contain it as a
substring: searching user 1 for `"a%b"` returns the entry titled `"axb"`, even
though `"a%b"` is a case-insensitive substring of neither its title nor its
content (so the claimed result — the empty sequence — is wrong). -/
theorem claim_C6_counterexample :
    AppBroken.get_user_entries ⟨[], [⟨1, 1, "axb", "note", 0, 0⟩], 2, 2⟩ 1 "a%b"
      = [⟨1, "axb", "note", 0, 0⟩] ∧
    containsCI "a%b" "axb" = false ∧
    containsCI "a%b" "note" = false :=
  ⟨rfl, rfl, rfl⟩

/-- C6 (amended): for a non-empty search term containing no `LIKE` wildcard
(`%` or `_`), `get_user_entries` returns exactly the user's entries whose
title or content contains the term as an ASCII-case-insensitive substring, in
the usual `updated_at`-descending order. -/
theorem claim_C6_search_substring (db : AppBroken.DB) (uid : Nat) (t : String)
    (ht : t ≠ "") (hw : ∀ c ∈ t.data, c ≠ '%' ∧ c ≠ '_') :
    AppBroken.get_user_entries db uid t
      = sortDescBy (fun v => v.updated_at)
          ((db.entries.filter (fun e => e.user_id == uid &&
              (containsCI t e.title || containsCI t e.content))).map
            AppBroken.EntryRow.view) := by
  rw [AppBroken.get_user_entries_eq,
    if_neg (show ¬ ((t == "") = true) from fun h => ht (by simpa using h))]
  have hfilter : db.entries.filter (fun e => e.user_id == uid && AppBroken.entryMatches t e)
      = db.entries.filter (fun e => e.user_id == uid &&
          (containsCI t e.title || containsCI t e.content)) := by
    apply List.filter_congr
    intro e _
    rw [entryMatches_eq_containsCI hw]
  rw [hfilter]

/-- C6 witness: the specification's own example — searching for `"rain"` finds
the entry whose content is `"It rained."`. -/
theorem claim_C6_witness :
    AppBroken.get_user_entries ⟨[], [⟨1, 1, "Day One", "It rained.", 0, 0⟩], 2, 2⟩ 1 "rain"
      = sortDescBy (fun v => v.updated_at)
          (((⟨[], [⟨1, 1, "Day One", "It rained.", 0, 0⟩], 2, 2⟩ : AppBroken.DB).entries.filter
              (fun e => e.user_id == 1 &&
                (containsCI "rain" e.title || containsCI "rain" e.content))).map
            AppBroken.EntryRow.view) :=
  claim_C6_search_substring ⟨[], [⟨1, 1, "Day One", "It rained.", 0, 0⟩], 2, 2⟩ 1 "rain"
    (by decide) (by decide)

/-- C7 counterexample: `create_journal_entry` itself performs no validation —
called with empty title *and* empty content it reports success and persists
the row, instead of failing with `InvalidInput` as claimed. -/
theorem claim_C7_counterexample :
    (AppBroken.create_journal_entry ⟨[], [], 1, 1⟩ 7 "" "" 5).1 = true ∧
    (AppBroken.create_journal_entry ⟨[], [], 1, 1⟩ 7 "" "" 5).2.entries
      = [⟨1, 7, "", "", 5, 5⟩] :=
  ⟨rfl, rfl⟩

/-- C7 (amended): the core `create_journal_entry` persists any title/content
(timestamps set to the current time) and reports success unconditionally; the
emptiness check lives in the caller `show_new_entry_form`, which invokes the
core only when both fields are non-empty and otherwise reports the
fill-in-both-fields error leaving the store untouched. -/
theorem claim_C7_caller_side_validation (db : AppBroken.DB) (user_id : Nat)
    (title content : String) (now : Nat) :
    ((AppBroken.create_journal_entry db user_id title content now).1 = true ∧
     (AppBroken.create_journal_entry db user_id title content now).2.entries
       = db.entries ++ [⟨db.nextEntryId, user_id, title, content, now, now⟩]) ∧
    (title = "" ∨ content = "" →
      AppBroken.show_new_entry_form_submit db user_id title content now
        = (AppBroken.FormResult.emptyFieldsError, db)) ∧
    (title ≠ "" → content ≠ "" →
      AppBroken.show_new_entry_form_submit db user_id title content now
        = (AppBroken.FormResult.saved,
           (AppBroken.create_journal_entry db user_id title content now).2)) := by
  refine ⟨⟨rfl, rfl⟩, ?_, ?_⟩
  · intro h
    have hcond : (title != "" && content != "") = false := by
      rcases h with rfl | rfl
      · simp
      · simp
    unfold AppBroken.show_new_entry_form_submit
    rw [if_neg (by simp [hcond])]
  · intro h1 h2
    have hcond : (title != "" && content != "") = true := by
      simp only [Bool.and_eq_true, bne_iff_ne]
      exact ⟨h1, h2⟩
    unfold AppBroken.show_new_entry_form_submit
    rw [if_pos hcond]
    rfl

/-- C7 witness: an empty title is rejected by the form without touching the
store, while non-empty fields are saved through `create_journal_entry`. -/
theorem claim_C7_witness :
    AppBroken.show_new_entry_form_submit ⟨[], [], 1, 1⟩ 7 "" "hello" 5
      = (AppBroken.FormResult.emptyFieldsError, ⟨[], [], 1, 1⟩) ∧
    AppBroken.show_new_entry_form_submit ⟨[], [], 1, 1⟩ 7 "Day" "hello" 5
      = (AppBroken.FormResult.saved,
         (AppBroken.create_journal_entry ⟨[], [], 1, 1⟩ 7 "Day" "hello" 5).2) :=
  ⟨(claim_C7_caller_side_validation ⟨[], [], 1, 1⟩ 7 "" "hello" 5).2.1 (Or.inl rfl),
   (claim_C7_caller_side_validation ⟨[], [], 1, 1⟩ 7 "Day" "hello" 5).2.2
      (by decide) (by decide)⟩

/-- C8: for a user with `n ≥ 1` entries, the export click produces the
document with the session username, the export timestamp, `total_entries = n`
and exactly the unfiltered `get_user_entries` listing (itself a permutation of
the user's stored rows), and leaves the database unchanged. -/
theorem claim_C8_export_roundtrip (db : AppBroken.DB) (uid : Nat) (username : String)
    (now : Nat) (n : Nat)
    (hn : (AppBroken.get_user_entries db uid "").length = n) (hpos : 1 ≤ n) :
    AppBroken.show_search_and_export_click db uid username now
      = (some { user := username, exported_at := now, total_entries := n,
                entries := AppBroken.get_user_entries db uid "" }, db) ∧
    (AppBroken.get_user_entries db uid "").Perm
        ((db.entries.filter (fun x => x.user_id == uid)).map AppBroken.EntryRow.view) := by
  have hne : ¬ ((AppBroken.get_user_entries db uid "").isEmpty = true) := by
    rw [List.isEmpty_iff]
    intro hnil
    rw [hnil] at hn
    simp at hn
    omega
  constructor
  · unfold AppBroken.show_search_and_export_click
    rw [if_neg hne, hn]
  · rw [AppBroken.get_user_entries_nosearch]
    exact sortDescBy_perm _ _

/-- C8 witness: exporting a single-entry journal. -/
theorem claim_C8_witness :
    AppBroken.show_search_and_export_click ⟨[], [⟨1, 1, "t", "c", 0, 0⟩], 2, 2⟩ 1 "alice" 9
      = (some { user := "alice", exported_at := 9, total_entries := 1,
                entries := AppBroken.get_user_entries ⟨[], [⟨1, 1, "t", "c", 0, 0⟩], 2, 2⟩ 1 "" },
         ⟨[], [⟨1, 1, "t", "c", 0, 0⟩], 2, 2⟩) :=
  (claim_C8_export_roundtrip ⟨[], [⟨1, 1, "t", "c", 0, 0⟩], 2, 2⟩ 1 "alice" 9 1
      rfl (by decide)).1
